import Mathlib

/-!
Verification of the matcher/dispatch core of `vitest-drizzle-mock`.

The development shallowly embeds the repository's mock engine:
`types.ts` (data model), `mock-handler.ts` (resolution engine, ledger,
reset operations) and `mock-controller.ts` (registration builder).
Stateful TypeScript classes become explicit state passing over
`MockHandlerState`; fallible operations return `Except`.

Parts of the current resolution engine are present in the repository only
through their declarations (`types.ts`), their callers
(`mock-controller.ts`, `mock-database.ts`) and their tests: the structural
branch of matching, the response-queue consumption, and the per-entry
handle call log.  Those definitions are modelled from the spec and marked
`Modelled from the spec:` in their doc comments.
-/

namespace VitestDrizzleMock

/-- Runtime values appearing in parameter lists and responses.  JavaScript
strict equality on these values is modelled by decidable equality. -/
inductive Val where
  | undef : Val
  | num : Int → Val
  | str : String → Val
  | bool : Bool → Val
deriving DecidableEq, Repr

/-- A JavaScript `Error` object.  The `ident` field models object identity,
so "rethrows that exact error object" is equality of `JsError` values. -/
structure JsError where
  ident : Nat
  message : String
deriving DecidableEq, Repr

/-- A compiled regular expression, abstracted as its test predicate plus a
printable form (`RegExp.test` and `RegExp.toString`). -/
structure SqlRegex where
  test : String → Bool
  printed : String

/-- `SqlFragment` from `types.ts`: a serialized sub-SQL-expression with its
own parameters. -/
structure SqlFragment where
  normalizedSql : String
  params : List Val

/-- `MockMatcher` from `types.ts`: the closed variant of matcher shapes. -/
inductive MockMatcher where
  | sqlExact (sql : String) (params : Option (List Val))
  | sqlStartsWith (sql : String) (params : Option (List Val))
  | sqlPattern (pattern : SqlRegex) (params : Option (List Val))
  | sqlContains (substring : String) (params : Option (List Val))
  | structural (operation : String) (tableName : String)
      (tableSchema : Option String) (columnKeys : Option (List String))
      (sqlFragments : Option (List SqlFragment))

/-- `MockResponse` from `types.ts`: static data or a computed response. -/
inductive MockResponse where
  | data (d : Val)
  | fn (f : String → List Val → Val)

/-- `MockHandle` from `types.ts`: the per-entry spy with its
`(sql, params)` call log. -/
structure MockHandle where
  calls : List (String × List Val)

/-- `MockEntry` from `types.ts`. -/
structure MockEntry where
  matcher : MockMatcher
  response : MockResponse
  responseQueue : Option (List MockResponse) := none
  error : Option JsError := none
  once : Bool
  consumed : Bool
  handle : MockHandle

/-- `RecordedCall` from `types.ts`. -/
structure RecordedCall where
  sql : String
  params : List Val
  timestamp : Nat
deriving DecidableEq, Repr

/-- `CapturedConfig` from `types.ts`: the structural descriptor the
database binding passes to `handle` alongside the SQL text. -/
structure CapturedConfig where
  operation : String
  tableName : String
  tableSchema : Option String
  columnKeys : List String
deriving DecidableEq, Repr

/-- The private state of a `MockHandler` instance: the insertion-ordered
entry set and the append-only call ledger. -/
structure MockHandlerState where
  mocks : List MockEntry
  recordedCalls : List RecordedCall

/-- `Array.prototype.join` specialised to strings. -/
def joinStrings (sep : String) : List String → String
  | [] => ""
  | [s] => s
  | s :: rest => s ++ sep ++ joinStrings sep rest

/-- Split a character list at whitespace characters (the tokens between
the separators, in order; empty tokens appear for adjacent separators). -/
def splitWsAux : List Char → List Char → List (List Char)
  | [], acc => [acc.reverse]
  | c :: cs, acc =>
    if c.isWhitespace then acc.reverse :: splitWsAux cs []
    else splitWsAux cs (c :: acc)

/-- `normalizeSql` from `mock-handler.ts`:
`sql.replace(/\s+/g, " ").trim()` — collapse every whitespace run to one
space and trim, i.e. join the non-empty whitespace-separated tokens with
single spaces. -/
def normalizeSql (s : String) : String :=
  joinStrings " "
    (((splitWsAux s.data []).filter (fun cs => !cs.isEmpty)).map (fun cs => String.mk cs))

/-- `paramsEqual` from `mock-handler.ts`: positional strict equality. -/
def paramsEqual : List Val → List Val → Bool
  | [], [] => true
  | a :: as, b :: bs => a == b && paramsEqual as bs
  | _, _ => false

/-- The shared `matcher.params` rule: when declared, require positional
equality; when absent, the text/structural shape alone governs. -/
def paramsOk (mp : Option (List Val)) (ps : List Val) : Bool :=
  match mp with
  | none => true
  | some l => paramsEqual l ps

/-- `String.prototype.includes`: `needle` occurs as a contiguous substring
of `hay` (always true for the empty needle). -/
def containsSubstr (hay needle : String) : Bool :=
  (List.range (hay.data.length + 1)).any
    (fun i => List.isPrefixOf needle.data (hay.data.drop i))

/-- Modelled from the spec: one positional occurrence test for a structural
`sqlFragment` — the fragment's text occurs at offset `i` of the call's
text, and the call's parameters at the placeholder offset (count of `?`
markers before `i`) equal the fragment's parameters. -/
def fragmentMatchesAt (f : SqlFragment) (sqlChars : List Char) (ps : List Val) (i : Nat) : Bool :=
  List.isPrefixOf f.normalizedSql.data (sqlChars.drop i) &&
    paramsEqual (((ps.drop ((sqlChars.take i).countP (fun c => c == '?'))).take f.params.length)) f.params

/-- Modelled from the spec: a structural `sqlFragment` must be found as a
substring of the call's text with matching positional parameters
(`mock-handler.ts` current revision is absent from the sources; only its
declarations, callers and tests are present). -/
def fragmentMatches (f : SqlFragment) (nsql : String) (ps : List Val) : Bool :=
  (List.range (nsql.data.length + 1)).any (fun i => fragmentMatchesAt f nsql.data ps i)

/-- `MockHandler.matches`: the acceptance predicate of a matcher over a
normalized call.  The four text variants follow `mock-handler.ts`; the
structural branch is modelled from the spec (operation, entity name and
entity schema all equal — including both-undefined —, declared field keys
a subset of the call's field keys, declared fragments present in the
call's text). -/
def matcherAccepts (m : MockMatcher) (nsql : String) (ps : List Val)
    (cfg : Option CapturedConfig) : Bool :=
  match m with
  | .sqlExact sql mp => normalizeSql sql == nsql && paramsOk mp ps
  | .sqlStartsWith sql mp => List.isPrefixOf (normalizeSql sql).data nsql.data && paramsOk mp ps
  | .sqlPattern pat mp => pat.test nsql && paramsOk mp ps
  | .sqlContains sub mp => containsSubstr nsql sub && paramsOk mp ps
  | .structural op tn ts cks frags =>
    match cfg with
    | none => false
    | some c =>
      op == c.operation && tn == c.tableName && ts == c.tableSchema &&
      (match cks with
       | some ks => ks.all (fun k => c.columnKeys.contains k)
       | none => true) &&
      (match frags with
       | some fs => fs.all (fun f => fragmentMatches f nsql ps)
       | none => true)

/-- `matcherSpecificity` from `mock-handler.ts`.  The five text scores are
those of the source; the three structural scores are modelled from the
spec (1.75 with fragments, 1.5 with field keys, 1.25 with neither). -/
def matcherSpecificity : MockMatcher → ℚ
  | .sqlExact _ mp => if mp.isSome then 5 else 4
  | .sqlStartsWith _ mp => if mp.isSome then 3 else 2
  | .sqlPattern _ _ => 1
  | .sqlContains _ _ => 1
  | .structural _ _ _ cks frags =>
    if frags.isSome then 7 / 4 else if cks.isSome then 3 / 2 else 5 / 4

/-- JSON rendering of one value, as `JSON.stringify` produces inside an
array (`undefined` becomes `null`). -/
def jsonVal : Val → String
  | .undef => "null"
  | .num n => toString n
  | .str s => "\"" ++ s ++ "\""
  | .bool b => if b then "true" else "false"

/-- `JSON.stringify(params)` for a parameter list. -/
def jsonParams (ps : List Val) : String :=
  "[" ++ joinStrings "," (ps.map jsonVal) ++ "]"

/-- `formatMatcher` from `mock-handler.ts`.  The four text shapes follow
the source; the structural line is modelled from the spec (a
human-readable description of the structural matcher's shape). -/
def formatMatcher : MockMatcher → String
  | .sqlExact sql mp =>
    "exact: \"" ++ sql ++ "\"" ++
      (match mp with
       | some ps => " params: " ++ jsonParams ps
       | none => "")
  | .sqlStartsWith sql mp =>
    "partial: \"" ++ sql ++ "\"" ++
      (match mp with
       | some ps => " params: " ++ jsonParams ps
       | none => "")
  | .sqlPattern pat _ => "pattern: " ++ pat.printed
  | .sqlContains sub _ => "contains: \"" ++ sub ++ "\""
  | .structural op tn _ cks _ =>
    "structural: " ++ op ++ " on \"" ++ tn ++ "\"" ++
      (match cks with
       | some ks => " columns: [" ++ joinStrings ", " ks ++ "]"
       | none => "")

/-- The diagnostic message of the unmatched-call error thrown by
`MockHandler.handle`. -/
def noMockMessage (mocks : List MockEntry) (nsql : String) (ps : List Val) : String :=
  "No mock registered for query:\n  SQL: " ++ nsql ++ "\n  Params: " ++ jsonParams ps ++
    (if mocks.isEmpty then ""
     else "\n\nRegistered mocks:\n" ++
       joinStrings "\n" (mocks.map (fun m => "  - " ++ formatMatcher m.matcher)))

/-- One iteration of the reverse scan in `MockHandler.handle`: examine the
entry at index `i`, keeping the carried best match unless this entry is an
unconsumed accepting entry of strictly higher specificity. -/
def scanStep (mocks : List MockEntry) (nsql : String) (ps : List Val)
    (cfg : Option CapturedConfig) (i : Nat) (best : Option (Nat × ℚ)) :
    Option (Nat × ℚ) :=
  match mocks.get? i with
  | none => best
  | some mock =>
    if mock.consumed then best
    else if matcherAccepts mock.matcher nsql ps cfg then
      match best with
      | none => some (i, matcherSpecificity mock.matcher)
      | some (_, bs) =>
        if bs < matcherSpecificity mock.matcher then
          some (i, matcherSpecificity mock.matcher)
        else best
    else best

/-- The loop `for (let i = mocks.length - 1; i >= 0; i--)` of
`MockHandler.handle`: with fuel `n`, indices `n-1, n-2, ..., 0` are
examined in that (descending) order. -/
def scanBest (mocks : List MockEntry) (nsql : String) (ps : List Val)
    (cfg : Option CapturedConfig) : Nat → Option (Nat × ℚ) → Option (Nat × ℚ)
  | 0, best => best
  | n + 1, best => scanBest mocks nsql ps cfg n (scanStep mocks nsql ps cfg n best)

/-- The complete reverse scan: all entries examined, starting from the most
recently registered, with no initial best match. -/
def findBest (mocks : List MockEntry) (nsql : String) (ps : List Val)
    (cfg : Option CapturedConfig) : Option (Nat × ℚ) :=
  scanBest mocks nsql ps cfg mocks.length none

/-- The index of the winning entry for a call, if any. -/
def winnerIndex (mocks : List MockEntry) (nsql : String) (ps : List Val)
    (cfg : Option CapturedConfig) : Option Nat :=
  (findBest mocks nsql ps cfg).map Prod.fst

/-- `MockHandler.resolveResponse`: static data, or the computed response
applied to the call. -/
def resolveResponse (r : MockResponse) (nsql : String) (ps : List Val) : Val :=
  match r with
  | .data d => d
  | .fn f => f nsql ps

/-- The state update applied to the winning entry.  Appending the call to
the entry's handle log and the response-queue pop (marking the entry
consumed when the queue empties and the entry is one-shot) are modelled
from the spec; the plain one-shot consumption flag follows
`mock-handler.ts`. -/
def winnerUpdate (e : MockEntry) (nsql : String) (ps : List Val) : MockEntry :=
  let logged : MockHandle := ⟨e.handle.calls ++ [(nsql, ps)]⟩
  match e.responseQueue with
  | some (_ :: rest) =>
    { e with handle := logged, responseQueue := some rest,
             consumed := if rest.isEmpty && e.once then true else e.consumed }
  | _ =>
    { e with handle := logged,
             consumed := if e.once then true else e.consumed }

/-- A `handle` call either produces a value or throws: the registered
error object of a `.throw` entry, or the unmatched-call diagnostic. -/
inductive HandleError where
  | mockError (e : JsError)
  | noMock (message : String)
deriving DecidableEq, Repr

instance {ε α : Type} [DecidableEq ε] [DecidableEq α] : DecidableEq (Except ε α) :=
  fun a b =>
    match a, b with
    | .ok x, .ok y =>
      if h : x = y then isTrue (by rw [h]) else isFalse (by intro he; cases he; exact h rfl)
    | .error x, .error y =>
      if h : x = y then isTrue (by rw [h]) else isFalse (by intro he; cases he; exact h rfl)
    | .ok _, .error _ => isFalse (by intro he; cases he)
    | .error _, .ok _ => isFalse (by intro he; cases he)

/-- The outcome produced for the winning entry: pop the front of the
response queue when one is present (modelled from the spec), otherwise
throw the configured error in preference to resolving the response
(`mock-handler.ts`). -/
def winnerResult (e : MockEntry) (nsql : String) (ps : List Val) :
    Except HandleError Val :=
  match e.responseQueue with
  | some (r :: _) => Except.ok (resolveResponse r nsql ps)
  | _ =>
    match e.error with
    | some err => Except.error (HandleError.mockError err)
    | none => Except.ok (resolveResponse e.response nsql ps)

/-- `MockHandler.handle`: normalize, log to the ledger, scan for the best
unconsumed accepting entry, then answer from the winner or fail with the
unmatched-call diagnostic. -/
def handle (st : MockHandlerState) (sql : String) (ps : List Val)
    (cfg : Option CapturedConfig) (now : Nat) :
    MockHandlerState × Except HandleError Val :=
  let nsql := normalizeSql sql
  let recorded := st.recordedCalls ++ [⟨nsql, ps, now⟩]
  match findBest st.mocks nsql ps cfg with
  | some (j, _) =>
    match st.mocks.get? j with
    | some mock =>
      ({ mocks := st.mocks.set j (winnerUpdate mock nsql ps),
         recordedCalls := recorded },
       winnerResult mock nsql ps)
    | none =>
      ({ mocks := st.mocks, recordedCalls := recorded },
       Except.error (HandleError.noMock (noMockMessage st.mocks nsql ps)))
  | none =>
    ({ mocks := st.mocks, recordedCalls := recorded },
     Except.error (HandleError.noMock (noMockMessage st.mocks nsql ps)))

/-- `MockHandler.register`. -/
def register (st : MockHandlerState) (e : MockEntry) : MockHandlerState :=
  { st with mocks := st.mocks ++ [e] }

/-- `MockHandler.reset`: clear both the entry set and the ledger. -/
def reset (_ : MockHandlerState) : MockHandlerState :=
  { mocks := [], recordedCalls := [] }

/-- `MockHandler.resetCalls`: clear the ledger only. -/
def resetCalls (st : MockHandlerState) : MockHandlerState :=
  { st with recordedCalls := [] }

/-- `MockHandler.resetMocks`: clear the entry set only. -/
def resetMocks (st : MockHandlerState) : MockHandlerState :=
  { st with mocks := [] }

/-- Iterate `handle` on the same call, collecting the outcomes in order. -/
def runCalls (st : MockHandlerState) (sql : String) (ps : List Val)
    (cfg : Option CapturedConfig) (now : Nat) :
    Nat → MockHandlerState × List (Except HandleError Val)
  | 0 => (st, [])
  | n + 1 =>
    let step := handle st sql ps cfg now
    let rest := runCalls step.1 sql ps cfg now n
    (rest.1, step.2 :: rest.2)

/-- `createMockHandle` from `mock-controller.ts`: a fresh spy with an
empty call log. -/
def createMockHandle : MockHandle := ⟨[]⟩

/-- The private accumulator state of a `MockBuilder`, bound to one matcher
at construction.  `registeredEntry` holds the index of the entry this
builder registered through `respondOnce`, mirroring the object reference
kept by the source. -/
structure BuilderState where
  matcher : MockMatcher
  matchParams : Bool := false
  isOnce : Bool := false
  partialFlag : Bool := false
  fragments : List SqlFragment := []
  registeredEntry : Option Nat := none

/-- A builder freshly constructed by the controller for a matcher. -/
def initBuilder (m : MockMatcher) : BuilderState :=
  { matcher := m }

/-- Does the matcher have the `structural` shape? -/
def isStructural : MockMatcher → Bool
  | .structural _ _ _ _ _ => true
  | _ => false

/-- Does the matcher have the `sql-exact` shape? -/
def isSqlExact : MockMatcher → Bool
  | .sqlExact _ _ => true
  | _ => false

namespace MockBuilder

/-- `MockBuilder.partial` (named `partialRefinement` here because the
source's name is reserved in Lean): mark an exact-text matcher as a
prefix matcher, rejecting incompatible matcher variants synchronously. -/
def partialRefinement (b : BuilderState) : Except String BuilderState :=
  if isStructural b.matcher then
    Except.error ".partial() cannot be used with structural matchers (callback-based .on())"
  else if !isSqlExact b.matcher then
    Except.error ".partial() can only be used with .on() (exact SQL matchers)"
  else Except.ok { b with partialFlag := true }

/-- `MockBuilder.withExactParams`: require strict parameter equality,
rejecting structural matchers synchronously. -/
def withExactParams (b : BuilderState) : Except String BuilderState :=
  if isStructural b.matcher then
    Except.error ".withExactParams() cannot be used with structural matchers (callback-based .on())"
  else Except.ok { b with matchParams := true }

/-- `MockBuilder.containingSql`: append a serialized SQL fragment
constraint, rejecting non-structural matchers synchronously.  The
fragment serialization through the dialect happens before this call in
the source; the model receives the serialized fragment. -/
def containingSql (b : BuilderState) (f : SqlFragment) : Except String BuilderState :=
  if !isStructural b.matcher then
    Except.error ".containingSql() can only be used with structural matchers (callback-based .on())"
  else Except.ok { b with fragments := b.fragments ++ [f] }

/-- `MockBuilder.once`. -/
def once (b : BuilderState) : BuilderState :=
  { b with isOnce := true }

/-- `MockBuilder.buildMatcher`: finalize the accumulated refinements into
the matcher stored on the registered entry. -/
def buildMatcher (b : BuilderState) : MockMatcher :=
  match b.matcher with
  | .structural op tn ts cks _ =>
    if b.fragments.length > 0 then .structural op tn ts cks (some b.fragments)
    else b.matcher
  | .sqlExact sql mp =>
    if b.partialFlag then
      .sqlStartsWith sql (if b.matchParams then mp else none)
    else
      .sqlExact sql (if b.matchParams then mp else none)
  | m => m

/-- Replace the element at index `i` (out-of-range indices leave the list
unchanged), as mutation through a retained object reference does. -/
def modifyAt (l : List MockEntry) (i : Nat) (f : MockEntry → MockEntry) : List MockEntry :=
  match l.get? i with
  | some e => l.set i (f e)
  | none => l

/-- `MockBuilder.respondOnce`: on first use, register a fresh one-shot
entry whose response queue holds the given value; on repeated use, push
the value onto the same entry's queue. -/
def respondOnce (b : BuilderState) (h : MockHandlerState) (d : Val) :
    BuilderState × MockHandlerState :=
  match b.registeredEntry with
  | none =>
    let entry : MockEntry :=
      { matcher := buildMatcher b
        response := .data .undef
        responseQueue := some [.data d]
        once := true
        consumed := false
        handle := createMockHandle }
    ({ b with registeredEntry := some h.mocks.length }, register h entry)
  | some i =>
    let push := fun (e : MockEntry) =>
      { e with responseQueue := e.responseQueue.map (fun q => q ++ [MockResponse.data d]) }
    (b, { h with mocks := modifyAt h.mocks i push })

/-- `MockBuilder.respond`: after `respondOnce`, convert the entry into a
persistent fallback; otherwise register a fresh entry with a static
response. -/
def respond (b : BuilderState) (h : MockHandlerState) (d : Val) :
    BuilderState × MockHandlerState :=
  match b.registeredEntry with
  | some i =>
    let fallback := fun (e : MockEntry) => { e with response := .data d, once := false }
    (b, { h with mocks := modifyAt h.mocks i fallback })
  | none =>
    (b, register h
      { matcher := buildMatcher b
        response := .data d
        once := b.isOnce
        consumed := false
        handle := createMockHandle })

/-- `MockBuilder.respondWith`: like `respond` with a computed response. -/
def respondWith (b : BuilderState) (h : MockHandlerState)
    (f : String → List Val → Val) : BuilderState × MockHandlerState :=
  match b.registeredEntry with
  | some i =>
    let fallback := fun (e : MockEntry) => { e with response := .fn f, once := false }
    (b, { h with mocks := modifyAt h.mocks i fallback })
  | none =>
    (b, register h
      { matcher := buildMatcher b
        response := .fn f
        once := b.isOnce
        consumed := false
        handle := createMockHandle })

/-- `MockBuilder.throw`: register an entry carrying a simulated failure. -/
def throwErr (b : BuilderState) (h : MockHandlerState) (err : JsError) :
    BuilderState × MockHandlerState :=
  (b, register h
    { matcher := buildMatcher b
      response := .data .undef
      error := some err
      once := b.isOnce
      consumed := false
      handle := createMockHandle })

end MockBuilder

/-- The handler state produced by a `respondOnce` chain over values `ds`
(builder constructed for matcher `m`, starting from a fresh handler),
optionally finished with a persistent `respond` fallback. -/
def chainState (m : MockMatcher) (ds : List Val) (fb : Option Val) : MockHandlerState :=
  let start : BuilderState × MockHandlerState :=
    (initBuilder m, { mocks := [], recordedCalls := [] })
  let queued := ds.foldl (fun bh d => MockBuilder.respondOnce bh.1 bh.2 d) start
  match fb with
  | some v => (MockBuilder.respond queued.1 queued.2 v).2
  | none => queued.2

/-! ### Characterization of the reverse resolution scan -/

/-- Index `i` holds an unconsumed entry whose matcher accepts the call. -/
def accepts (mocks : List MockEntry) (nsql : String) (ps : List Val)
    (cfg : Option CapturedConfig) (i : Nat) : Prop :=
  ∃ e, mocks.get? i = some e ∧ e.consumed = false ∧
    matcherAccepts e.matcher nsql ps cfg = true

/-- The specificity score of the entry at index `i` (0 when out of range). -/
def specAt (mocks : List MockEntry) (i : Nat) : ℚ :=
  match mocks.get? i with
  | some e => matcherSpecificity e.matcher
  | none => 0

/-- Invariant of the reverse scan: the carried best match summarizes all
already-examined indices, i.e. all indices `≥ n`. -/
def ScanInv (mocks : List MockEntry) (nsql : String) (ps : List Val)
    (cfg : Option CapturedConfig) (n : Nat) : Option (Nat × ℚ) → Prop
  | none => ∀ i, n ≤ i → ¬ accepts mocks nsql ps cfg i
  | some (j, s) =>
    n ≤ j ∧ accepts mocks nsql ps cfg j ∧ s = specAt mocks j ∧
      (∀ i, n ≤ i → accepts mocks nsql ps cfg i → specAt mocks i ≤ s) ∧
      (∀ i, n ≤ i → accepts mocks nsql ps cfg i → specAt mocks i = s → i ≤ j)

lemma ScanInv_extend {mocks : List MockEntry} {nsql : String} {ps : List Val}
    {cfg : Option CapturedConfig} {n : Nat} {best : Option (Nat × ℚ)}
    (h : ScanInv mocks nsql ps cfg (n + 1) best)
    (hnacc : ¬ accepts mocks nsql ps cfg n) :
    ScanInv mocks nsql ps cfg n best := by
  have step : ∀ i, n ≤ i → accepts mocks nsql ps cfg i → n + 1 ≤ i := by
    intro i hi hacc
    rcases Nat.eq_or_lt_of_le hi with rfl | hlt
    · exact absurd hacc hnacc
    · exact hlt
  cases best with
  | none =>
    intro i hi hacc
    exact h i (step i hi hacc) hacc
  | some js =>
    obtain ⟨j, s⟩ := js
    obtain ⟨hj, haccj, hs, hmax, htie⟩ := h
    exact ⟨Nat.le_of_succ_le hj, haccj, hs,
      fun i hi hacc => hmax i (step i hi hacc) hacc,
      fun i hi hacc he => htie i (step i hi hacc) hacc he⟩

lemma scanStep_inv {mocks : List MockEntry} {nsql : String} {ps : List Val}
    {cfg : Option CapturedConfig} {n : Nat} {best : Option (Nat × ℚ)}
    (h : ScanInv mocks nsql ps cfg (n + 1) best) :
    ScanInv mocks nsql ps cfg n (scanStep mocks nsql ps cfg n best) := by
  unfold scanStep
  cases hget : mocks.get? n with
  | none =>
    refine ScanInv_extend h ?_
    rintro ⟨e, he, -, -⟩
    rw [hget] at he
    exact Option.noConfusion he
  | some mock =>
    cases hcons : mock.consumed with
    | true =>
      simp only [hcons, if_true]
      refine ScanInv_extend h ?_
      rintro ⟨e, he, hc, -⟩
      rw [hget] at he
      cases he
      rw [hcons] at hc
      exact Bool.noConfusion hc
    | false =>
      simp only [hcons, Bool.false_eq_true, if_false]
      cases hmatch : matcherAccepts mock.matcher nsql ps cfg with
      | false =>
        simp only [hmatch, Bool.false_eq_true, if_false]
        refine ScanInv_extend h ?_
        rintro ⟨e, he, -, hm⟩
        rw [hget] at he
        cases he
        rw [hmatch] at hm
        exact Bool.noConfusion hm
      | true =>
        simp only [hmatch, if_true]
        have haccn : accepts mocks nsql ps cfg n := ⟨mock, hget, hcons, hmatch⟩
        have hspecn : specAt mocks n = matcherSpecificity mock.matcher := by
          unfold specAt
          rw [hget]
        have split_ge : ∀ i, n ≤ i → i = n ∨ n + 1 ≤ i := by
          intro i hi
          rcases Nat.eq_or_lt_of_le hi with rfl | hlt
          · exact Or.inl rfl
          · exact Or.inr hlt
        cases best with
        | none =>
          refine ⟨Nat.le_refl n, haccn, hspecn.symm, ?_, ?_⟩
          · intro i hi hacc
            rcases split_ge i hi with rfl | hgt
            · rw [hspecn]
            · exact absurd hacc (h i hgt)
          · intro i hi hacc _
            rcases split_ge i hi with rfl | hgt
            · exact Nat.le_refl _
            · exact absurd hacc (h i hgt)
        | some js =>
          obtain ⟨j, s⟩ := js
          obtain ⟨hj, haccj, hs, hmax, htie⟩ := h
          by_cases hlt : s < matcherSpecificity mock.matcher
          · simp only [hlt, if_true]
            refine ⟨Nat.le_refl n, haccn, hspecn.symm, ?_, ?_⟩
            · intro i hi hacc
              rcases split_ge i hi with rfl | hgt
              · rw [hspecn]
              · exact le_of_lt (lt_of_le_of_lt (hmax i hgt hacc) hlt)
            · intro i hi hacc he
              rcases split_ge i hi with rfl | hgt
              · exact Nat.le_refl _
              · exact absurd he (ne_of_lt (lt_of_le_of_lt (hmax i hgt hacc) hlt))
          · simp only [hlt, if_false]
            have hns : matcherSpecificity mock.matcher ≤ s := le_of_not_lt hlt
            refine ⟨Nat.le_of_succ_le hj, haccj, hs, ?_, ?_⟩
            · intro i hi hacc
              rcases split_ge i hi with rfl | hgt
              · rw [hspecn]; exact hns
              · exact hmax i hgt hacc
            · intro i hi hacc he
              rcases split_ge i hi with rfl | hgt
              · exact Nat.le_of_succ_le hj
              · exact htie i hgt hacc he

lemma scanBest_inv {mocks : List MockEntry} {nsql : String} {ps : List Val}
    {cfg : Option CapturedConfig} :
    ∀ {n : Nat} {best : Option (Nat × ℚ)}, ScanInv mocks nsql ps cfg n best →
      ScanInv mocks nsql ps cfg 0 (scanBest mocks nsql ps cfg n best) := by
  intro n
  induction n with
  | zero => intro best h; exact h
  | succ m ih =>
    intro best h
    exact ih (scanStep_inv h)

lemma findBest_inv (mocks : List MockEntry) (nsql : String) (ps : List Val)
    (cfg : Option CapturedConfig) :
    ScanInv mocks nsql ps cfg 0 (findBest mocks nsql ps cfg) := by
  refine scanBest_inv ?_
  intro i hi
  rintro ⟨e, he, -, -⟩
  rw [List.get?_len_le hi] at he
  exact Option.noConfusion he

/-- The scan fails exactly when no unconsumed entry accepts the call. -/
lemma findBest_none_iff (mocks : List MockEntry) (nsql : String) (ps : List Val)
    (cfg : Option CapturedConfig) :
    findBest mocks nsql ps cfg = none ↔
      ∀ i, ¬ accepts mocks nsql ps cfg i := by
  have h := findBest_inv mocks nsql ps cfg
  cases hf : findBest mocks nsql ps cfg with
  | none =>
    rw [hf] at h
    exact ⟨fun _ i => h i (Nat.zero_le i), fun _ => rfl⟩
  | some js =>
    obtain ⟨j, s⟩ := js
    rw [hf] at h
    refine ⟨fun he => Option.noConfusion he, fun hall => absurd h.2.1 (hall j)⟩

/-- When the scan succeeds it returns an unconsumed accepting entry of
maximal specificity; among entries of that specificity, the one with the
largest index — the most recently registered — wins. -/
lemma findBest_some_spec {mocks : List MockEntry} {nsql : String} {ps : List Val}
    {cfg : Option CapturedConfig} {j : Nat} {s : ℚ}
    (hf : findBest mocks nsql ps cfg = some (j, s)) :
    accepts mocks nsql ps cfg j ∧ s = specAt mocks j ∧
      (∀ i, accepts mocks nsql ps cfg i → specAt mocks i ≤ specAt mocks j) ∧
      (∀ i, accepts mocks nsql ps cfg i → specAt mocks i = specAt mocks j → i ≤ j) := by
  have h := findBest_inv mocks nsql ps cfg
  rw [hf] at h
  obtain ⟨-, hacc, hs, hmax, htie⟩ := h
  subst hs
  exact ⟨hacc, rfl, fun i hi => hmax i (Nat.zero_le i) hi,
    fun i hi he => htie i (Nat.zero_le i) hi he⟩

/-! ### Equations for `handle` -/

lemma handle_winner_eq {st : MockHandlerState} {sql : String} {ps : List Val}
    {cfg : Option CapturedConfig} {now j : Nat} {s : ℚ} {e : MockEntry}
    (hf : findBest st.mocks (normalizeSql sql) ps cfg = some (j, s))
    (he : st.mocks.get? j = some e) :
    handle st sql ps cfg now =
      ({ mocks := st.mocks.set j (winnerUpdate e (normalizeSql sql) ps),
         recordedCalls := st.recordedCalls ++ [⟨normalizeSql sql, ps, now⟩] },
       winnerResult e (normalizeSql sql) ps) := by
  unfold handle
  simp only [hf, he]

lemma handle_nomatch_eq {st : MockHandlerState} {sql : String} {ps : List Val}
    {cfg : Option CapturedConfig} {now : Nat}
    (hf : findBest st.mocks (normalizeSql sql) ps cfg = none) :
    handle st sql ps cfg now =
      ({ mocks := st.mocks,
         recordedCalls := st.recordedCalls ++ [⟨normalizeSql sql, ps, now⟩] },
       Except.error (HandleError.noMock (noMockMessage st.mocks (normalizeSql sql) ps))) := by
  unfold handle
  simp only [hf]

/-- The ledger is appended to on every call, whatever the outcome. -/
lemma handle_ledger (st : MockHandlerState) (sql : String) (ps : List Val)
    (cfg : Option CapturedConfig) (now : Nat) :
    (handle st sql ps cfg now).1.recordedCalls =
      st.recordedCalls ++ [⟨normalizeSql sql, ps, now⟩] := by
  unfold handle
  rcases hf : findBest st.mocks (normalizeSql sql) ps cfg with - | ⟨j, s⟩
  · simp only [hf]
  · rcases hg : st.mocks.get? j with - | e
    · simp only [hf, hg]
    · simp only [hf, hg]

/-- A successful scan result names a live entry of the list. -/
lemma winner_entry {mocks : List MockEntry} {nsql : String} {ps : List Val}
    {cfg : Option CapturedConfig} {j : Nat} {s : ℚ}
    (hf : findBest mocks nsql ps cfg = some (j, s)) :
    ∃ e, mocks.get? j = some e ∧ e.consumed = false ∧
      matcherAccepts e.matcher nsql ps cfg = true :=
  (findBest_some_spec hf).1

/-! ### Substring containment for diagnostic messages -/

/-- `needle` occurs contiguously inside `hay` (stated on character data). -/
def StrContains (hay needle : String) : Prop :=
  ∃ pre post, hay.data = pre ++ needle.data ++ post

lemma strContains_middle (a x b : String) : StrContains (a ++ x ++ b) x := by
  refine ⟨a.data, b.data, ?_⟩
  simp [String.data_append, List.append_assoc]

lemma strContains_trans {a b c : String} (h1 : StrContains b a) (h2 : StrContains c b) :
    StrContains c a := by
  obtain ⟨p1, q1, hb⟩ := h1
  obtain ⟨p2, q2, hc⟩ := h2
  exact ⟨p2 ++ p1, q1 ++ q2, by rw [hc, hb]; simp [List.append_assoc]⟩

lemma strContains_append_left {a : String} (x : String) (h : StrContains a x) (b : String) :
    StrContains (a ++ b) x := by
  obtain ⟨p, q, ha⟩ := h
  exact ⟨p, q ++ b.data, by rw [String.data_append, ha]; simp [List.append_assoc]⟩

lemma strContains_append_right {b : String} (x : String) (h : StrContains b x) (a : String) :
    StrContains (a ++ b) x := by
  obtain ⟨p, q, hb⟩ := h
  exact ⟨a.data ++ p, q, by rw [String.data_append, hb]; simp [List.append_assoc]⟩

lemma strContains_refl (x : String) : StrContains x x :=
  ⟨[], [], by simp⟩

lemma strContains_left_append (a x : String) : StrContains (a ++ x) x :=
  ⟨a.data, [], by simp⟩

/-- Every element of a joined list occurs inside the join. -/
lemma strContains_join (sep : String) :
    ∀ (l : List String) (s : String), s ∈ l → StrContains (joinStrings sep l) s := by
  intro l
  induction l with
  | nil => intro s hs; cases hs
  | cons a rest ih =>
    intro s hs
    cases rest with
    | nil =>
      have hsa : s = a := by simpa using hs
      subst hsa
      exact strContains_refl s
    | cons b tail =>
      rcases List.mem_cons.mp hs with rfl | hmem
      · show StrContains (s ++ sep ++ joinStrings sep (b :: tail)) s
        exact strContains_append_left _ (strContains_append_left _ (strContains_refl s) _) _
      · show StrContains (a ++ sep ++ joinStrings sep (b :: tail)) s
        exact strContains_append_right _ (ih s hmem) _

/-! ### Singleton-state and queue-consumption lemmas -/

lemma findBest_single_accept {e : MockEntry} {nsql : String} {ps : List Val}
    {cfg : Option CapturedConfig}
    (hc : e.consumed = false) (hm : matcherAccepts e.matcher nsql ps cfg = true) :
    findBest [e] nsql ps cfg = some (0, matcherSpecificity e.matcher) := by
  simp [findBest, scanBest, scanStep, hc, hm]

lemma findBest_single_consumed {e : MockEntry} {nsql : String} {ps : List Val}
    {cfg : Option CapturedConfig} (hc : e.consumed = true) :
    findBest [e] nsql ps cfg = none := by
  simp [findBest, scanBest, scanStep, hc]

lemma winnerUpdate_queue_pop {e : MockEntry} {nsql : String} {ps : List Val}
    {r : MockResponse} {rest : List MockResponse}
    (hq : e.responseQueue = some (r :: rest)) :
    winnerUpdate e nsql ps =
      { e with handle := ⟨e.handle.calls ++ [(nsql, ps)]⟩,
               responseQueue := some rest,
               consumed := if rest.isEmpty && e.once then true else e.consumed } := by
  unfold winnerUpdate
  rw [hq]

lemma winnerUpdate_queue_empty {e : MockEntry} {nsql : String} {ps : List Val}
    (hq : e.responseQueue = some []) :
    winnerUpdate e nsql ps =
      { e with handle := ⟨e.handle.calls ++ [(nsql, ps)]⟩,
               consumed := if e.once then true else e.consumed } := by
  unfold winnerUpdate
  rw [hq]

lemma winnerUpdate_no_queue {e : MockEntry} {nsql : String} {ps : List Val}
    (hq : e.responseQueue = none) :
    winnerUpdate e nsql ps =
      { e with handle := ⟨e.handle.calls ++ [(nsql, ps)]⟩,
               consumed := if e.once then true else e.consumed } := by
  unfold winnerUpdate
  rw [hq]

lemma winnerResult_queue_pop {e : MockEntry} {nsql : String} {ps : List Val}
    {r : MockResponse} {rest : List MockResponse}
    (hq : e.responseQueue = some (r :: rest)) :
    winnerResult e nsql ps = Except.ok (resolveResponse r nsql ps) := by
  unfold winnerResult
  rw [hq]

lemma winnerResult_queue_empty {e : MockEntry} {nsql : String} {ps : List Val}
    (hq : e.responseQueue = some []) :
    winnerResult e nsql ps =
      (match e.error with
       | some err => Except.error (HandleError.mockError err)
       | none => Except.ok (resolveResponse e.response nsql ps)) := by
  unfold winnerResult
  rw [hq]

lemma winnerResult_no_queue {e : MockEntry} {nsql : String} {ps : List Val}
    (hq : e.responseQueue = none) :
    winnerResult e nsql ps =
      (match e.error with
       | some err => Except.error (HandleError.mockError err)
       | none => Except.ok (resolveResponse e.response nsql ps)) := by
  unfold winnerResult
  rw [hq]

/-- `[a].set 0 b = [b]`, the singleton-state entry replacement. -/
lemma set_zero_singleton (a b : MockEntry) : [a].set 0 b = [b] := rfl

/-- Running as many identical accepted calls as the queue holds pops the
queued responses one by one, in order, and consumes the entry at the last
pop exactly when it is one-shot. -/
lemma runCalls_queue (sql : String) (ps : List Val) (cfg : Option CapturedConfig)
    (now : Nat) (ds : List Val) :
    ∀ (e : MockEntry) (rc : List RecordedCall),
      e.responseQueue = some (ds.map MockResponse.data) →
      (ds ≠ [] → e.consumed = false) →
      matcherAccepts e.matcher (normalizeSql sql) ps cfg = true →
      runCalls ⟨[e], rc⟩ sql ps cfg now ds.length =
        (⟨[{ e with
              responseQueue := some [],
              consumed := if ds.isEmpty then e.consumed else e.once,
              handle := ⟨e.handle.calls ++ ds.map (fun _ => (normalizeSql sql, ps))⟩ }],
           rc ++ List.replicate ds.length ⟨normalizeSql sql, ps, now⟩⟩,
         ds.map (fun d => Except.ok d)) := by
  induction ds with
  | nil =>
    intro e rc hq _ _
    rw [List.map_nil] at hq
    simp only [List.length_nil, List.map_nil, List.isEmpty_nil, if_true,
      List.append_nil, List.replicate_zero]
    rw [runCalls, ← hq]
  | cons d rest ih =>
    intro e rc hq hcons hm
    have hc : e.consumed = false := hcons (by simp)
    have hq1 : e.responseQueue = some (MockResponse.data d :: rest.map MockResponse.data) := by
      simpa using hq
    have hfb := @findBest_single_accept e (normalizeSql sql) ps cfg hc hm
    simp only [List.length_cons]
    rw [runCalls]
    rw [@handle_winner_eq ⟨[e], rc⟩ sql ps cfg now 0 (matcherSpecificity e.matcher) e hfb rfl]
    rw [winnerUpdate_queue_pop hq1, winnerResult_queue_pop hq1, set_zero_singleton]
    set e1 : MockEntry :=
      { e with handle := ⟨e.handle.calls ++ [(normalizeSql sql, ps)]⟩,
               responseQueue := some (rest.map MockResponse.data),
               consumed := if (rest.map MockResponse.data).isEmpty && e.once then true
                           else e.consumed } with he1
    have hq2 : e1.responseQueue = some (rest.map MockResponse.data) := rfl
    have hc2 : rest ≠ [] → e1.consumed = false := by
      intro hne
      rw [he1]
      have hie : (rest.map MockResponse.data).isEmpty = false := by
        cases rest with
        | nil => exact absurd rfl hne
        | cons x xs => rfl
      simp [hie, hc]
    have hrun := ih e1 (rc ++ [⟨normalizeSql sql, ps, now⟩]) hq2 hc2 hm
    rw [hrun]
    simp only [Prod.mk.injEq, MockHandlerState.mk.injEq, List.cons.injEq, List.map_cons,
      and_true, true_and]
    refine ⟨?_, ?_⟩
    · cases rest with
      | nil =>
        cases ho : e.once with
        | true => simp [ho]
        | false => simp [ho, hc]
      | cons x xs =>
        simp [List.append_assoc, List.replicate_succ]
    · simp [List.replicate_succ, List.append_assoc, resolveResponse]

/-! ### The entry produced by a `respondOnce` chain -/

/-- The single entry a `respondOnce` chain builds: a queue holding the
chained values in order, one-shot unless a persistent fallback was added,
with the fallback (if any) as the fixed response. -/
def chainEntry (m : MockMatcher) (ds : List Val) (fb : Option Val) : MockEntry :=
  { matcher := MockBuilder.buildMatcher (initBuilder m)
    response :=
      match fb with
      | some v => MockResponse.data v
      | none => MockResponse.data Val.undef
    responseQueue := some (ds.map MockResponse.data)
    error := none
    once := fb.isNone
    consumed := false
    handle := ⟨[]⟩ }

lemma foldl_respondOnce (ds : List Val) :
    ∀ (b : BuilderState) (e : MockEntry) (rc : List RecordedCall) (q : List MockResponse),
      b.registeredEntry = some 0 → e.responseQueue = some q →
      ds.foldl (fun bh d => MockBuilder.respondOnce bh.1 bh.2 d) (b, ⟨[e], rc⟩) =
        (b, ⟨[{ e with responseQueue := some (q ++ ds.map MockResponse.data) }], rc⟩) := by
  induction ds with
  | nil =>
    intro b e rc q hreg hq
    simp only [List.foldl_nil, List.map_nil, List.append_nil]
    rw [← hq]
  | cons d rest ih =>
    intro b e rc q hreg hq
    simp only [List.foldl_cons]
    have hstep : MockBuilder.respondOnce b ⟨[e], rc⟩ d =
        (b, ⟨[{ e with responseQueue := some (q ++ [MockResponse.data d]) }], rc⟩) := by
      unfold MockBuilder.respondOnce MockBuilder.modifyAt
      rw [hreg]
      simp [hq]
    rw [hstep]
    rw [ih b { e with responseQueue := some (q ++ [MockResponse.data d]) } rc
      (q ++ [MockResponse.data d]) hreg rfl]
    simp [List.append_assoc]

lemma chainState_cons_eq (m : MockMatcher) (d : Val) (ds : List Val) (fb : Option Val) :
    chainState m (d :: ds) fb = ⟨[chainEntry m (d :: ds) fb], []⟩ := by
  unfold chainState
  simp only [List.foldl_cons]
  have h1 : MockBuilder.respondOnce (initBuilder m) ⟨[], []⟩ d =
      ({ initBuilder m with registeredEntry := some 0 },
       ⟨[{ matcher := MockBuilder.buildMatcher (initBuilder m)
           response := MockResponse.data Val.undef
           responseQueue := some [MockResponse.data d]
           error := none
           once := true
           consumed := false
           handle := ⟨[]⟩ }], []⟩) := rfl
  rw [h1]
  rw [foldl_respondOnce ds _ _ _ [MockResponse.data d] rfl rfl]
  cases fb with
  | none => simp [chainEntry]
  | some v =>
    show (MockBuilder.respond _ _ v).2 = _
    unfold MockBuilder.respond MockBuilder.modifyAt
    simp [chainEntry]

/-! ### Claim theorems -/

lemma handle_single_queue_exhausted {e : MockEntry} {sql : String} {ps : List Val}
    {cfg : Option CapturedConfig} {now : Nat} {rc : List RecordedCall}
    (hq : e.responseQueue = some []) (hc : e.consumed = false) (herr : e.error = none)
    (hm : matcherAccepts e.matcher (normalizeSql sql) ps cfg = true) :
    (handle ⟨[e], rc⟩ sql ps cfg now).2 =
      Except.ok (resolveResponse e.response (normalizeSql sql) ps) := by
  rw [@handle_winner_eq ⟨[e], rc⟩ sql ps cfg now 0 (matcherSpecificity e.matcher) e
      (findBest_single_accept hc hm) rfl,
    winnerResult_queue_empty hq, herr]

lemma handle_single_consumed_noMock {e : MockEntry} {sql : String} {ps : List Val}
    {cfg : Option CapturedConfig} {now : Nat} {rc : List RecordedCall}
    (hc : e.consumed = true) :
    (handle ⟨[e], rc⟩ sql ps cfg now).2 =
      Except.error (HandleError.noMock (noMockMessage [e] (normalizeSql sql) ps)) := by
  rw [handle_nomatch_eq (findBest_single_consumed hc)]

/-- Claim C1: for an entry registered via `respondOnce` with queued
responses `ds` (and possibly a fallback set by a later `respond` call),
the first `ds.length` calls accepted by its matcher receive the queued
responses in FIFO order, the entry is marked consumed at a pop exactly
when its queue empties while it is one-shot, and the next accepted call
receives the fallback `respond` value if one was set, else the call fails
as unmatched. -/
theorem respondOnce_queue_fifo
    (m : MockMatcher) (ds : List Val) (fb : Option Val) (sql : String)
    (ps : List Val) (cfg : Option CapturedConfig) (now : Nat)
    (hne : ds ≠ [])
    (hacc : matcherAccepts (MockBuilder.buildMatcher (initBuilder m))
      (normalizeSql sql) ps cfg = true) :
    (runCalls (chainState m ds fb) sql ps cfg now ds.length).2 =
        ds.map (fun d => Except.ok d) ∧
    (∃ e, (runCalls (chainState m ds fb) sql ps cfg now ds.length).1.mocks = [e] ∧
        (e.consumed = true ↔ fb = none)) ∧
    (∀ (e : MockEntry) (r : MockResponse) (rest : List MockResponse)
        (rc : List RecordedCall),
      e.responseQueue = some (r :: rest) → e.consumed = false →
      matcherAccepts e.matcher (normalizeSql sql) ps cfg = true →
      ∃ e2, (handle ⟨[e], rc⟩ sql ps cfg now).1.mocks = [e2] ∧
        e2.consumed = (rest.isEmpty && e.once)) ∧
    ((handle (runCalls (chainState m ds fb) sql ps cfg now ds.length).1
        sql ps cfg now).2 =
      match fb with
      | some v => Except.ok v
      | none =>
        Except.error (HandleError.noMock
          (noMockMessage
            (runCalls (chainState m ds fb) sql ps cfg now ds.length).1.mocks
            (normalizeSql sql) ps))) := by
  obtain ⟨d, ds2, rfl⟩ : ∃ d ds2, ds = d :: ds2 := by
    cases ds with
    | nil => exact absurd rfl hne
    | cons a b => exact ⟨a, b, rfl⟩
  have hq : (chainEntry m (d :: ds2) fb).responseQueue =
      some ((d :: ds2).map MockResponse.data) := rfl
  have hcz : (d :: ds2) ≠ [] → (chainEntry m (d :: ds2) fb).consumed = false :=
    fun _ => rfl
  have hrun := runCalls_queue sql ps cfg now (d :: ds2)
    (chainEntry m (d :: ds2) fb) [] hq hcz hacc
  rw [chainState_cons_eq, hrun]
  refine ⟨rfl, ⟨_, rfl, ?_⟩, ?_, ?_⟩
  · simp [chainEntry, Option.isNone_iff_eq_none]
  · intro e r rest rc hq1 hc1 hm1
    have hfb := @findBest_single_accept e (normalizeSql sql) ps cfg hc1 hm1
    rw [@handle_winner_eq ⟨[e], rc⟩ sql ps cfg now 0 (matcherSpecificity e.matcher) e hfb rfl,
      winnerUpdate_queue_pop hq1, set_zero_singleton]
    refine ⟨_, rfl, ?_⟩
    show (if rest.isEmpty && e.once then true else e.consumed) = (rest.isEmpty && e.once)
    rw [hc1]
    cases hb : rest.isEmpty && e.once <;> simp [hb]
  · cases fb with
    | some v =>
      apply handle_single_queue_exhausted rfl rfl rfl hacc
    | none =>
      apply handle_single_consumed_noMock rfl

theorem respondOnce_queue_fifo_witness :
    ([Val.num 1, Val.num 2] ≠ ([] : List Val)) ∧
    (runCalls (chainState (MockMatcher.sqlContains "Q" none)
        [Val.num 1, Val.num 2] (some (Val.num 9))) "Q" [] none 0 2).2 =
      [Except.ok (Val.num 1), Except.ok (Val.num 2)] :=
  ⟨by decide,
   (respondOnce_queue_fifo (MockMatcher.sqlContains "Q" none)
     [Val.num 1, Val.num 2] (some (Val.num 9)) "Q" [] none 0
     (by decide) (by decide)).1⟩

/-- A sample persistent substring entry used by concrete witnesses. -/
def sampleEntry : MockEntry :=
  { matcher := .sqlContains "X" none
    response := .data (.num 7)
    once := false
    consumed := false
    handle := ⟨[]⟩ }

/-- Claim C2: a structural matcher accepts a call only if the call carries
a structural descriptor whose operation, entity name and entity schema all
equal the matcher's, and every field key the matcher names is present in
the call's field keys (subset check): a matcher naming a is accepted
against a call touching a and b, while a matcher naming a and b rejects a
call touching only a. -/
theorem structural_matcher_subset :
    (∀ (op tn : String) (ts : Option String) (cks : Option (List String))
        (frags : Option (List SqlFragment)) (nsql : String) (ps : List Val)
        (cfg : Option CapturedConfig),
      matcherAccepts (.structural op tn ts cks frags) nsql ps cfg = true →
      ∃ c, cfg = some c ∧ c.operation = op ∧ c.tableName = tn ∧
        c.tableSchema = ts ∧
        ∀ ks, cks = some ks → ∀ k ∈ ks, c.columnKeys.contains k = true) ∧
    matcherAccepts (.structural "update" "users" none (some ["a"]) none) "S" []
      (some ⟨"update", "users", none, ["a", "b"]⟩) = true ∧
    matcherAccepts (.structural "update" "users" none (some ["a", "b"]) none) "S" []
      (some ⟨"update", "users", none, ["a"]⟩) = false := by
  refine ⟨?_, by decide, by decide⟩
  intro op tn ts cks frags nsql ps cfg h
  cases cfg with
  | none => exact absurd h (by simp [matcherAccepts])
  | some c =>
    simp only [matcherAccepts, Bool.and_eq_true, beq_iff_eq] at h
    obtain ⟨⟨⟨⟨hop, htn⟩, hts⟩, hcol⟩, -⟩ := h
    refine ⟨c, rfl, hop.symm, htn.symm, hts.symm, ?_⟩
    intro ks hks
    subst hks
    simp only [List.all_eq_true] at hcol
    exact hcol

theorem structural_matcher_subset_witness :
    ∃ c, (some ⟨"update", "users", none, ["a", "b"]⟩ : Option CapturedConfig) = some c ∧
      c.operation = "update" ∧ c.tableName = "users" ∧ c.tableSchema = none ∧
      ∀ ks, (some ["a"] : Option (List String)) = some ks →
        ∀ k ∈ ks, c.columnKeys.contains k = true :=
  structural_matcher_subset.1 "update" "users" none (some ["a"]) none "S" []
    (some ⟨"update", "users", none, ["a", "b"]⟩) (by decide)

/-- Claim C3: for every call with at least one non-consumed accepting
entry, resolution returns an accepting entry of the highest specificity
score (exact-text with params 5, exact-text 4, prefix-text with params 3,
prefix-text 2, pattern and substring 1), and among entries of equal
highest specificity the most recently registered one wins, regardless of
the registration order of differently-scored entries. -/
theorem specificity_resolution :
    (∀ (s : String) (ps : List Val), matcherSpecificity (.sqlExact s (some ps)) = 5) ∧
    (∀ s : String, matcherSpecificity (.sqlExact s none) = 4) ∧
    (∀ (s : String) (ps : List Val), matcherSpecificity (.sqlStartsWith s (some ps)) = 3) ∧
    (∀ s : String, matcherSpecificity (.sqlStartsWith s none) = 2) ∧
    (∀ (pat : SqlRegex) (mp : Option (List Val)), matcherSpecificity (.sqlPattern pat mp) = 1) ∧
    (∀ (sub : String) (mp : Option (List Val)), matcherSpecificity (.sqlContains sub mp) = 1) ∧
    (∀ (mocks : List MockEntry) (nsql : String) (ps : List Val)
        (cfg : Option CapturedConfig) (i : Nat),
      accepts mocks nsql ps cfg i →
      ∃ j, winnerIndex mocks nsql ps cfg = some j ∧ accepts mocks nsql ps cfg j ∧
        (∀ k, accepts mocks nsql ps cfg k → specAt mocks k ≤ specAt mocks j) ∧
        (∀ k, accepts mocks nsql ps cfg k → specAt mocks k = specAt mocks j → k ≤ j)) := by
  refine ⟨fun s ps => rfl, fun s => rfl, fun s ps => rfl, fun s => rfl,
    fun pat mp => rfl, fun sub mp => rfl, ?_⟩
  intro mocks nsql ps cfg i hi
  cases hf : findBest mocks nsql ps cfg with
  | none => exact absurd hi ((findBest_none_iff mocks nsql ps cfg).mp hf i)
  | some js =>
    obtain ⟨j, s⟩ := js
    obtain ⟨haccj, -, hmax, htie⟩ := findBest_some_spec hf
    refine ⟨j, ?_, haccj, hmax, htie⟩
    rw [winnerIndex, hf]
    rfl

theorem specificity_resolution_witness :
    ∃ j, winnerIndex [sampleEntry] "X" [] none = some j ∧
      accepts [sampleEntry] "X" [] none j ∧
      (∀ k, accepts [sampleEntry] "X" [] none k →
        specAt [sampleEntry] k ≤ specAt [sampleEntry] j) ∧
      (∀ k, accepts [sampleEntry] "X" [] none k →
        specAt [sampleEntry] k = specAt [sampleEntry] j → k ≤ j) :=
  specificity_resolution.2.2.2.2.2.2 [sampleEntry] "X" [] none 0
    ⟨sampleEntry, rfl, rfl, by decide⟩

/-- Claim C8: applying a builder refinement to an incompatible matcher
variant — the prefix refinement on a structural matcher, the prefix
refinement on any non-exact-text matcher, strict parameters on a
structural matcher, or a SQL-fragment constraint on a non-structural
matcher — fails with a descriptive error at the refinement call itself,
before any query is executed (the refinements never touch the handler
state). -/
theorem refinement_guards :
    (∀ b : BuilderState, isStructural b.matcher = true →
      MockBuilder.partialRefinement b = Except.error
        ".partial() cannot be used with structural matchers (callback-based .on())") ∧
    (∀ b : BuilderState, isStructural b.matcher = false → isSqlExact b.matcher = false →
      MockBuilder.partialRefinement b = Except.error
        ".partial() can only be used with .on() (exact SQL matchers)") ∧
    (∀ b : BuilderState, isStructural b.matcher = true →
      MockBuilder.withExactParams b = Except.error
        ".withExactParams() cannot be used with structural matchers (callback-based .on())") ∧
    (∀ (b : BuilderState) (f : SqlFragment), isStructural b.matcher = false →
      MockBuilder.containingSql b f = Except.error
        ".containingSql() can only be used with structural matchers (callback-based .on())") := by
  refine ⟨?_, ?_, ?_, ?_⟩
  · intro b hb
    simp [MockBuilder.partialRefinement, hb]
  · intro b hb1 hb2
    simp [MockBuilder.partialRefinement, hb1, hb2]
  · intro b hb
    simp [MockBuilder.withExactParams, hb]
  · intro b f hb
    simp [MockBuilder.containingSql, hb]

theorem refinement_guards_witness :
    MockBuilder.partialRefinement (initBuilder (.structural "update" "users" none none none)) =
      Except.error ".partial() cannot be used with structural matchers (callback-based .on())" :=
  refinement_guards.1 (initBuilder (.structural "update" "users" none none none)) rfl

/-- Claim C9: the three reset operations are independent and idempotent.
`reset` empties both the entry set and the ledger; `resetMocks` empties
only the entry set, leaving the ledger unchanged; `resetCalls` empties
only the ledger, leaving the entry set unchanged, so a call repeated
after `resetCalls` still resolves to the same entry; applying any of them
twice equals applying it once. -/
theorem reset_operations :
    (∀ st : MockHandlerState, reset st = ⟨[], []⟩) ∧
    (∀ st : MockHandlerState,
      (resetMocks st).mocks = [] ∧ (resetMocks st).recordedCalls = st.recordedCalls) ∧
    (∀ st : MockHandlerState,
      (resetCalls st).recordedCalls = [] ∧ (resetCalls st).mocks = st.mocks) ∧
    (∀ st : MockHandlerState, reset (reset st) = reset st) ∧
    (∀ st : MockHandlerState, resetMocks (resetMocks st) = resetMocks st) ∧
    (∀ st : MockHandlerState, resetCalls (resetCalls st) = resetCalls st) ∧
    (∀ (st : MockHandlerState) (nsql : String) (ps : List Val)
        (cfg : Option CapturedConfig),
      winnerIndex (resetCalls st).mocks nsql ps cfg = winnerIndex st.mocks nsql ps cfg) :=
  ⟨fun _ => rfl, fun _ => ⟨rfl, rfl⟩, fun _ => ⟨rfl, rfl⟩, fun _ => rfl,
   fun _ => rfl, fun _ => rfl, fun _ _ _ _ => rfl⟩

lemma winnerIndex_some_elim {mocks : List MockEntry} {nsql : String} {ps : List Val}
    {cfg : Option CapturedConfig} {j : Nat}
    (hw : winnerIndex mocks nsql ps cfg = some j) :
    ∃ s, findBest mocks nsql ps cfg = some (j, s) := by
  unfold winnerIndex at hw
  rcases hf : findBest mocks nsql ps cfg with - | ⟨j2, s⟩
  · rw [hf] at hw
    exact Option.noConfusion hw
  · rw [hf] at hw
    have hj : j2 = j := by simpa using hw
    subst hj
    exact ⟨s, rfl⟩

lemma handle_winner_state {st : MockHandlerState} {sql : String} {ps : List Val}
    {cfg : Option CapturedConfig} {now j : Nat} {e : MockEntry}
    (hw : winnerIndex st.mocks (normalizeSql sql) ps cfg = some j)
    (he : st.mocks.get? j = some e) :
    (handle st sql ps cfg now).1.mocks =
      st.mocks.set j (winnerUpdate e (normalizeSql sql) ps) ∧
    (handle st sql ps cfg now).2 = winnerResult e (normalizeSql sql) ps := by
  obtain ⟨s, hf⟩ := winnerIndex_some_elim hw
  rw [handle_winner_eq hf he]
  exact ⟨rfl, rfl⟩

lemma winnerIndex_of_findBest {mocks : List MockEntry} {nsql : String} {ps : List Val}
    {cfg : Option CapturedConfig} {j : Nat} {s : ℚ}
    (hf : findBest mocks nsql ps cfg = some (j, s)) :
    winnerIndex mocks nsql ps cfg = some j := by
  rw [winnerIndex, hf]
  rfl

/-- After a one-shot (no-queue) entry at `j` wins, no later identical call
is won by index `j` again. -/
lemma post_winner_ne {st : MockHandlerState} {sql : String} {ps : List Val}
    {cfg : Option CapturedConfig} {now j : Nat} {e : MockEntry}
    (hw : winnerIndex st.mocks (normalizeSql sql) ps cfg = some j)
    (he : st.mocks.get? j = some e)
    (honce : e.once = true) (hq : e.responseQueue = none) :
    ∀ k, winnerIndex (handle st sql ps cfg now).1.mocks (normalizeSql sql) ps cfg = some k →
      k ≠ j := by
  intro k hk hkj
  subst hkj
  obtain ⟨s2, hf2⟩ := winnerIndex_some_elim hk
  obtain ⟨ek, hek, hconsk, -⟩ := winner_entry hf2
  rw [(handle_winner_state hw he).1] at hek
  have hlt : k < st.mocks.length := (List.get?_eq_some.mp he).1
  rw [List.get?_set_eq_of_lt _ hlt] at hek
  have hekw : winnerUpdate e (normalizeSql sql) ps = ek := Option.some.inj hek
  rw [← hekw, winnerUpdate_no_queue hq, honce] at hconsk
  exact Bool.noConfusion hconsk

/-- Claim C4: whenever an entry wins resolution for a call, the pair of
normalized text and parameters is appended to that entry's handle call
log — and to no other entry's log — while the global ledger records the
call unconditionally. -/
theorem handle_log_exact
    (st : MockHandlerState) (sql : String) (ps : List Val)
    (cfg : Option CapturedConfig) (now i : Nat) (e : MockEntry)
    (he : st.mocks.get? i = some e) :
    (handle st sql ps cfg now).1.recordedCalls =
      st.recordedCalls ++ [⟨normalizeSql sql, ps, now⟩] ∧
    ∃ e2, (handle st sql ps cfg now).1.mocks.get? i = some e2 ∧
      e2.handle.calls = e.handle.calls ++
        (if winnerIndex st.mocks (normalizeSql sql) ps cfg = some i
         then [(normalizeSql sql, ps)] else []) := by
  refine ⟨handle_ledger st sql ps cfg now, ?_⟩
  cases hf : findBest st.mocks (normalizeSql sql) ps cfg with
  | none =>
    rw [handle_nomatch_eq hf]
    refine ⟨e, he, ?_⟩
    rw [winnerIndex, hf]
    simp
  | some js =>
    obtain ⟨j, s⟩ := js
    obtain ⟨ew, hew, -, -⟩ := winner_entry hf
    rw [handle_winner_eq hf hew]
    have hwi : winnerIndex st.mocks (normalizeSql sql) ps cfg = some j :=
      winnerIndex_of_findBest hf
    by_cases hij : i = j
    · subst hij
      have hlt : i < st.mocks.length := (List.get?_eq_some.mp he).1
      have hee : ew = e := by
        rw [he] at hew
        exact (Option.some.inj hew).symm
      subst hee
      refine ⟨winnerUpdate ew (normalizeSql sql) ps,
        List.get?_set_eq_of_lt _ hlt, ?_⟩
      rw [hwi, if_pos rfl]
      rcases hq : ew.responseQueue with - | q
      · rw [winnerUpdate_no_queue hq]
      · cases q with
        | nil => rw [winnerUpdate_queue_empty hq]
        | cons r rest => rw [winnerUpdate_queue_pop hq]
    · refine ⟨e, ?_, ?_⟩
      · rw [List.get?_set_ne _ _ (fun hji => hij hji.symm)]
        exact he
      · rw [hwi, if_neg (fun hcontra => hij (Option.some.inj hcontra).symm)]
        simp

theorem handle_log_exact_witness :
    ∃ e2, (handle ⟨[sampleEntry], []⟩ "X" [] none 0).1.mocks.get? 0 = some e2 ∧
      e2.handle.calls = sampleEntry.handle.calls ++
        (if winnerIndex [sampleEntry] (normalizeSql "X") [] none = some 0
         then [(normalizeSql "X", [])] else []) :=
  (handle_log_exact ⟨[sampleEntry], []⟩ "X" [] none 0 0 sampleEntry rfl).2

/-- A sample one-shot entry carrying a simulated failure, used by
concrete witnesses. -/
def sampleThrowEntry : MockEntry :=
  { matcher := .sqlContains "X" none
    response := .data .undef
    error := some ⟨3, "DB down"⟩
    once := true
    consumed := false
    handle := ⟨[]⟩ }

/-- Claim C6: when an entry registered with a simulated failure wins
resolution, the call throws exactly the registered error object,
whatever the entry's response strategy is, and the call is still recorded
both in the ledger and in the winning entry's handle call log. -/
theorem throw_entry_behavior
    (st : MockHandlerState) (sql : String) (ps : List Val)
    (cfg : Option CapturedConfig) (now j : Nat) (e : MockEntry) (err : JsError)
    (hw : winnerIndex st.mocks (normalizeSql sql) ps cfg = some j)
    (he : st.mocks.get? j = some e)
    (herr : e.error = some err) (hq : e.responseQueue = none) :
    (handle st sql ps cfg now).2 = Except.error (HandleError.mockError err) ∧
    (handle st sql ps cfg now).1.recordedCalls =
      st.recordedCalls ++ [⟨normalizeSql sql, ps, now⟩] ∧
    ∃ e2, (handle st sql ps cfg now).1.mocks.get? j = some e2 ∧
      e2.handle.calls = e.handle.calls ++ [(normalizeSql sql, ps)] := by
  obtain ⟨hst, hres⟩ := @handle_winner_state st sql ps cfg now j e hw he
  refine ⟨?_, handle_ledger st sql ps cfg now, ?_⟩
  · rw [hres, winnerResult_no_queue hq, herr]
  · have hlt : j < st.mocks.length := (List.get?_eq_some.mp he).1
    rw [hst]
    refine ⟨winnerUpdate e (normalizeSql sql) ps,
      List.get?_set_eq_of_lt _ hlt, ?_⟩
    rw [winnerUpdate_no_queue hq]

theorem throw_entry_behavior_witness :
    (handle ⟨[sampleThrowEntry], []⟩ "X" [] none 0).2 =
      Except.error (HandleError.mockError ⟨3, "DB down"⟩) :=
  (throw_entry_behavior ⟨[sampleThrowEntry], []⟩ "X" [] none 0 0 sampleThrowEntry
    ⟨3, "DB down"⟩ (by decide) rfl rfl rfl).1

/-- Claim C5: for every call with no accepting non-consumed entry,
`handle` fails with an error whose message contains the call's normalized
text and its parameter list and, whenever at least one entry is
registered, a human-readable description of every registered matcher's
shape; the failure is surfaced to the caller as the thrown error. -/
theorem unmatched_call_diagnostic
    (st : MockHandlerState) (sql : String) (ps : List Val)
    (cfg : Option CapturedConfig) (now : Nat)
    (hnone : ∀ i, ¬ accepts st.mocks (normalizeSql sql) ps cfg i) :
    ∃ msg, (handle st sql ps cfg now).2 = Except.error (HandleError.noMock msg) ∧
      StrContains msg (normalizeSql sql) ∧
      StrContains msg (jsonParams ps) ∧
      (st.mocks ≠ [] → ∀ m ∈ st.mocks, StrContains msg (formatMatcher m.matcher)) := by
  have hf : findBest st.mocks (normalizeSql sql) ps cfg = none :=
    (findBest_none_iff st.mocks (normalizeSql sql) ps cfg).mpr hnone
  rw [handle_nomatch_eq hf]
  refine ⟨noMockMessage st.mocks (normalizeSql sql) ps, rfl, ?_, ?_, ?_⟩
  · unfold noMockMessage
    exact strContains_append_left _
      (strContains_append_left _
        (strContains_append_left _ (strContains_left_append _ _) _) _) _
  · unfold noMockMessage
    exact strContains_append_left _ (strContains_left_append _ _) _
  · intro hne m hm
    unfold noMockMessage
    have hie : st.mocks.isEmpty = false := by
      cases hmm : st.mocks with
      | nil => exact absurd hmm hne
      | cons a l => rfl
    simp only [hie, Bool.false_eq_true, if_false]
    have hmem : ("  - " ++ formatMatcher m.matcher) ∈
        st.mocks.map (fun mm => "  - " ++ formatMatcher mm.matcher) :=
      List.mem_map_of_mem _ hm
    have h1 := strContains_join "\n" _ _ hmem
    have h2 := strContains_left_append "  - " (formatMatcher m.matcher)
    exact strContains_append_right _
      (strContains_append_right _ (strContains_trans h2 h1) _) _

theorem unmatched_call_diagnostic_witness :
    ∃ msg, (handle ⟨[sampleEntry], []⟩ "ZZZ" [] none 0).2 =
        Except.error (HandleError.noMock msg) ∧
      StrContains msg (normalizeSql "ZZZ") ∧
      StrContains msg (jsonParams []) ∧
      (([sampleEntry] : List MockEntry) ≠ [] →
        ∀ m ∈ [sampleEntry], StrContains msg (formatMatcher m.matcher)) := by
  refine unmatched_call_diagnostic ⟨[sampleEntry], []⟩ "ZZZ" [] none 0 ?_
  rintro i ⟨e, he, hc, hm⟩
  cases i with
  | zero =>
    have hse : sampleEntry = e := Option.some.inj he
    rw [← hse] at hm
    revert hm
    decide
  | succ n => exact Option.noConfusion he

/-- A sample one-shot entry used by concrete witnesses. -/
def sampleOnceEntry : MockEntry :=
  { matcher := .sqlContains "X" none
    response := .data (.num 1)
    once := true
    consumed := false
    handle := ⟨[]⟩ }

/-- Claim C7: a one-shot entry is consumed by the first call it wins and
never resurrected; a consumed entry never wins again; an identical second
call is won, if at all, by a different entry than the consumed one — and
when no accepting unconsumed entry remains it fails as unmatched; an
accepting entry that loses resolution is left untouched. -/
theorem once_entry_lifecycle :
    (∀ (st : MockHandlerState) (sql : String) (ps : List Val)
        (cfg : Option CapturedConfig) (now j : Nat) (e : MockEntry),
      winnerIndex st.mocks (normalizeSql sql) ps cfg = some j →
      st.mocks.get? j = some e → e.once = true → e.responseQueue = none →
      ∃ e2, (handle st sql ps cfg now).1.mocks.get? j = some e2 ∧
        e2.consumed = true) ∧
    (∀ (st : MockHandlerState) (sql : String) (ps : List Val)
        (cfg : Option CapturedConfig) (now i : Nat) (e e2 : MockEntry),
      st.mocks.get? i = some e →
      (handle st sql ps cfg now).1.mocks.get? i = some e2 →
      e.consumed = true → e2.consumed = true) ∧
    (∀ (mocks : List MockEntry) (nsql : String) (ps : List Val)
        (cfg : Option CapturedConfig) (j : Nat),
      winnerIndex mocks nsql ps cfg = some j →
      ∃ e, mocks.get? j = some e ∧ e.consumed = false) ∧
    (∀ (st : MockHandlerState) (sql : String) (ps : List Val)
        (cfg : Option CapturedConfig) (now i j : Nat),
      winnerIndex st.mocks (normalizeSql sql) ps cfg = some j → i ≠ j →
      (handle st sql ps cfg now).1.mocks.get? i = st.mocks.get? i) ∧
    (∀ (st : MockHandlerState) (sql : String) (ps : List Val)
        (cfg : Option CapturedConfig) (now j : Nat) (e : MockEntry),
      winnerIndex st.mocks (normalizeSql sql) ps cfg = some j →
      st.mocks.get? j = some e → e.once = true → e.responseQueue = none →
      ((∃ k, accepts (handle st sql ps cfg now).1.mocks (normalizeSql sql) ps cfg k) →
        ∃ k, winnerIndex (handle st sql ps cfg now).1.mocks
            (normalizeSql sql) ps cfg = some k ∧ k ≠ j) ∧
      ((∀ k, ¬ accepts (handle st sql ps cfg now).1.mocks (normalizeSql sql) ps cfg k) →
        ∃ msg, (handle (handle st sql ps cfg now).1 sql ps cfg now).2 =
          Except.error (HandleError.noMock msg))) := by
  refine ⟨?_, ?_, ?_, ?_, ?_⟩
  · intro st sql ps cfg now j e hw he honce hq
    have hlt : j < st.mocks.length := (List.get?_eq_some.mp he).1
    rw [(@handle_winner_state st sql ps cfg now j e hw he).1]
    refine ⟨winnerUpdate e (normalizeSql sql) ps,
      List.get?_set_eq_of_lt _ hlt, ?_⟩
    rw [winnerUpdate_no_queue hq]
    simp [honce]
  · intro st sql ps cfg now i e e2 he he2 hcons
    cases hf : findBest st.mocks (normalizeSql sql) ps cfg with
    | none =>
      rw [handle_nomatch_eq hf] at he2
      rw [he] at he2
      rw [← Option.some.inj he2]
      exact hcons
    | some js =>
      obtain ⟨j, s⟩ := js
      obtain ⟨ew, hew, hconsw, -⟩ := winner_entry hf
      rw [handle_winner_eq hf hew] at he2
      by_cases hij : i = j
      · subst hij
        rw [he] at hew
        rw [← Option.some.inj hew] at hconsw
        rw [hcons] at hconsw
        exact Bool.noConfusion hconsw
      · rw [List.get?_set_ne _ _ (fun hji => hij hji.symm), he] at he2
        rw [← Option.some.inj he2]
        exact hcons
  · intro mocks nsql ps cfg j hw
    obtain ⟨s, hf⟩ := winnerIndex_some_elim hw
    obtain ⟨e, he, hcons, -⟩ := winner_entry hf
    exact ⟨e, he, hcons⟩
  · intro st sql ps cfg now i j hw hij
    obtain ⟨s, hf⟩ := winnerIndex_some_elim hw
    obtain ⟨ew, hew, -, -⟩ := winner_entry hf
    rw [handle_winner_eq hf hew]
    exact List.get?_set_ne _ _ (fun hji => hij hji.symm)
  · intro st sql ps cfg now j e hw he honce hq
    constructor
    · rintro ⟨k0, hacc0⟩
      cases hf2 : findBest (handle st sql ps cfg now).1.mocks (normalizeSql sql) ps cfg with
      | none =>
        exact absurd hacc0 ((findBest_none_iff _ _ _ _).mp hf2 k0)
      | some ks =>
        obtain ⟨k, s2⟩ := ks
        refine ⟨k, winnerIndex_of_findBest hf2, ?_⟩
        exact post_winner_ne hw he honce hq k (winnerIndex_of_findBest hf2)
    · intro hall
      have hf2 : findBest (handle st sql ps cfg now).1.mocks (normalizeSql sql) ps cfg = none :=
        (findBest_none_iff _ _ _ _).mpr hall
      rw [handle_nomatch_eq hf2]
      exact ⟨_, rfl⟩

theorem once_entry_lifecycle_witness :
    ∃ e2, (handle ⟨[sampleOnceEntry], []⟩ "X" [] none 0).1.mocks.get? 0 = some e2 ∧
      e2.consumed = true :=
  once_entry_lifecycle.1 ⟨[sampleOnceEntry], []⟩ "X" [] none 0 0 sampleOnceEntry
    (by decide) rfl rfl rfl

/-- Claim C10: when a one-shot entry wins, its consumed flag is set in the
same step that produces the response or throws the configured error: a
one-shot `.throw` entry is consumed by the very call that receives its
error, a subsequent identical call is never again won by that entry, and
the ledger append is retained even though the call ends in an error. -/
theorem consume_before_throw
    (st : MockHandlerState) (sql : String) (ps : List Val)
    (cfg : Option CapturedConfig) (now j : Nat) (e : MockEntry) (err : JsError)
    (hw : winnerIndex st.mocks (normalizeSql sql) ps cfg = some j)
    (he : st.mocks.get? j = some e)
    (honce : e.once = true) (herr : e.error = some err) (hq : e.responseQueue = none) :
    (handle st sql ps cfg now).2 = Except.error (HandleError.mockError err) ∧
    (∃ e2, (handle st sql ps cfg now).1.mocks.get? j = some e2 ∧
      e2.consumed = true) ∧
    (handle st sql ps cfg now).1.recordedCalls =
      st.recordedCalls ++ [⟨normalizeSql sql, ps, now⟩] ∧
    (∀ k, winnerIndex (handle st sql ps cfg now).1.mocks
        (normalizeSql sql) ps cfg = some k → k ≠ j) := by
  obtain ⟨hst, hres⟩ := @handle_winner_state st sql ps cfg now j e hw he
  refine ⟨?_, ?_, handle_ledger st sql ps cfg now, post_winner_ne hw he honce hq⟩
  · rw [hres, winnerResult_no_queue hq, herr]
  · have hlt : j < st.mocks.length := (List.get?_eq_some.mp he).1
    rw [hst]
    refine ⟨winnerUpdate e (normalizeSql sql) ps,
      List.get?_set_eq_of_lt _ hlt, ?_⟩
    rw [winnerUpdate_no_queue hq]
    simp [honce]

theorem consume_before_throw_witness :
    (handle ⟨[sampleThrowEntry], []⟩ "X" [] none 0).2 =
      Except.error (HandleError.mockError ⟨3, "DB down"⟩) ∧
    ∃ e2, (handle ⟨[sampleThrowEntry], []⟩ "X" [] none 0).1.mocks.get? 0 = some e2 ∧
      e2.consumed = true :=
  ⟨(consume_before_throw ⟨[sampleThrowEntry], []⟩ "X" [] none 0 0 sampleThrowEntry
      ⟨3, "DB down"⟩ (by decide) rfl rfl rfl rfl).1,
   (consume_before_throw ⟨[sampleThrowEntry], []⟩ "X" [] none 0 0 sampleThrowEntry
      ⟨3, "DB down"⟩ (by decide) rfl rfl rfl rfl).2.1⟩

end VitestDrizzleMock
